import Mathlib

/-!
Verification development for the console UI layer of the habitat repository
(`components/common/src/ui.rs`).

The Rust source is shallowly embedded: pure fragments become Lean functions,
environment access becomes explicit parameters (`symbolStyleEnv : Option String`,
`isWindows : Bool`), stream output becomes explicit lists of emitted lines, and
fallible operations return `Option`/`Except`.  Machine integers (`u64`, `usize`)
are modelled as `Nat`; the one place the source performs a `usize` subtraction
that can underflow (`wrap_width - left_indent` in `print_wrapped`) is modelled
with a checked subtraction returning `Option`.
-/

set_option maxRecDepth 4000

namespace Habitat

/-! ### Character-list string primitives

The Rust string operations used by `ui.rs` (`to_lowercase`, `trim`,
`split("\n\n")`, `split_whitespace`, `lines`) are modelled over the character
list of a string, so that every definition evaluates by kernel reduction on
concrete inputs.  Unicode-only differences (Rust lowercases and recognises
whitespace beyond ASCII) are irrelevant to the inputs these operations
receive here and are not modelled. -/

/-- Rust `str::to_lowercase`, at the ASCII level: lowercase every character. -/
def toLowerStr (s : String) : String :=
  String.mk (s.data.map Char.toLower)

/-- Rust `str::trim`: remove leading and trailing whitespace. -/
def trimStr (s : String) : String :=
  String.mk
    (((s.data.dropWhile Char.isWhitespace).reverse.dropWhile
        Char.isWhitespace).reverse)

/-- Worker for Rust `str::split("\n\n")`: cut the character stream at each
leftmost non-overlapping occurrence of two consecutive newlines.  The
accumulator holds the current fragment in reverse order. -/
def splitParasAux : List Char → List Char → List (List Char)
  | [], acc => [acc.reverse]
  | '\n' :: '\n' :: cs, acc => acc.reverse :: splitParasAux cs []
  | c :: cs, acc => splitParasAux cs (c :: acc)

/-- Rust `text.split("\n\n")`: the list of paragraph fragments. -/
def splitParas (s : String) : List String :=
  (splitParasAux s.data []).map (fun l => String.mk l)

/-- Worker for Rust `str::split_whitespace`: collect maximal runs of
non-whitespace characters, skipping empty fragments. -/
def splitWsAux : List Char → List Char → List (List Char)
  | [], acc => if acc = [] then [] else [acc.reverse]
  | c :: cs, acc =>
    if c.isWhitespace then
      if acc = [] then splitWsAux cs [] else acc.reverse :: splitWsAux cs []
    else splitWsAux cs (c :: acc)

/-- Rust `str::split_whitespace`: the whitespace-separated words of a
string. -/
def splitWhitespace (s : String) : List String :=
  (splitWsAux s.data []).map (fun l => String.mk l)

/-- Semantic colors of the UI layer, mirroring `enum UIColor` in `ui.rs`. -/
inductive UIColor where
  | Plain
  | Info
  | Important
  | Warn
  | Critical
  | End
deriving DecidableEq, Repr

/-- Error kinds of the UI layer that the embedded operations can produce.
`badSymbolStyle` mirrors `Error::BadSymbolStyle`, `editorEnv` mirrors
`Error::EditorEnv`, `editStatus` mirrors `Error::EditStatus`, and `ioFail`
stands for a propagated `std::io::Error`. -/
inductive UIError where
  | badSymbolStyle (value : String)
  | editorEnv
  | editStatus
  | ioFail
deriving DecidableEq, Repr

/-- Symbol styles, mirroring `enum UISymbolStyle` in `ui.rs`. -/
inductive UISymbolStyle where
  | Full
  | Limited
  | Ascii
deriving DecidableEq, Repr

/-- Mirrors `impl Default for UISymbolStyle`: the default style is `Full`. -/
def UISymbolStyle.default : UISymbolStyle := UISymbolStyle.Full

/-- Mirrors `impl FromStr for UISymbolStyle`: the input is lowercased and
matched against the three style names; anything else is a `BadSymbolStyle`
error. -/
def UISymbolStyle.from_str (value : String) : Except UIError UISymbolStyle :=
  let v := toLowerStr value
  if v = "full" then Except.ok UISymbolStyle.Full
  else if v = "limited" then Except.ok UISymbolStyle.Limited
  else if v = "ascii" then Except.ok UISymbolStyle.Ascii
  else Except.error (UIError.badSymbolStyle value)

/-- Abstract glyph identifiers, mirroring `enum UISymbol` in `ui.rs`. -/
inductive UISymbol where
  | UpArrow
  | FingerPoint
  | CheckMark
  | BoxedCheckMark
  | Omega
  | BoxedX
  | RightArrow
  | Cloud
  | DownArrow
  | Elipses
  | DottedTriangle
  | RightShift
  | Star
  | SlashedZero
  | ErrorX
deriving DecidableEq, Repr

/-- The style-resolution prelude of `UISymbol::to_str`: if the symbol-style
environment variable is set, parse it and fall back to the default (`Full`)
when unparseable (`unwrap_or_default`); if it is unset, use `Limited` on
Windows (`cfg!(target_os = "windows")`) and the default elsewhere.  The
environment read `env::var(SYMBOL_STYLE_ENVVAR)` is modelled by the
`symbolStyleEnv` parameter and the compile-time platform test by the
`isWindows` parameter. -/
def resolveStyle (symbolStyleEnv : Option String) (isWindows : Bool) : UISymbolStyle :=
  match symbolStyleEnv with
  | some s =>
    match UISymbolStyle.from_str s with
    | Except.ok st => st
    | Except.error _ => UISymbolStyle.default
  | none =>
    if isWindows then UISymbolStyle.Limited else UISymbolStyle.default

/-- The rendering tables of `UISymbol::to_str`: the inner `match style` of the
source, one arm per style, one row per glyph. -/
def UISymbol.renderIn (self : UISymbol) (style : UISymbolStyle) : String :=
  match style with
  | UISymbolStyle.Ascii =>
    match self with
    | UISymbol.UpArrow => "^"
    | UISymbol.FingerPoint => "->"
    | UISymbol.CheckMark => "[x]"
    | UISymbol.BoxedCheckMark => "#"
    | UISymbol.Omega => "->"
    | UISymbol.BoxedX => "X"
    | UISymbol.RightArrow => "->"
    | UISymbol.Cloud => "->"
    | UISymbol.DownArrow => ">"
    | UISymbol.Elipses => "..."
    | UISymbol.DottedTriangle => "?"
    | UISymbol.RightShift => ">>"
    | UISymbol.Star => "*"
    | UISymbol.SlashedZero => "0"
    | UISymbol.ErrorX => "XXX"
  | UISymbolStyle.Limited =>
    match self with
    | UISymbol.UpArrow => "↑"
    | UISymbol.FingerPoint => "→"
    | UISymbol.CheckMark => "√"
    | UISymbol.BoxedCheckMark => "⌂"
    | UISymbol.Omega => "Ω"
    | UISymbol.BoxedX => "░"
    | UISymbol.RightArrow => "→"
    | UISymbol.Cloud => "⌂"
    | UISymbol.DownArrow => "↓"
    | UISymbol.Elipses => "…"
    | UISymbol.DottedTriangle => "‼"
    | UISymbol.RightShift => "»"
    | UISymbol.Star => "≡"
    | UISymbol.SlashedZero => "Ø"
    | UISymbol.ErrorX => "XXX"
  | UISymbolStyle.Full =>
    match self with
    | UISymbol.UpArrow => "↑"
    | UISymbol.FingerPoint => "☛"
    | UISymbol.CheckMark => "√"
    | UISymbol.BoxedCheckMark => "☑"
    | UISymbol.Omega => "Ω"
    | UISymbol.BoxedX => "☒"
    | UISymbol.RightArrow => "→"
    | UISymbol.Cloud => "☁"
    | UISymbol.DownArrow => "↓"
    | UISymbol.Elipses => "…"
    | UISymbol.DottedTriangle => "∵"
    | UISymbol.RightShift => "»"
    | UISymbol.Star => "★"
    | UISymbol.SlashedZero => "Ø"
    | UISymbol.ErrorX => "✗✗✗"

/-- Mirrors `UISymbol::to_str`: resolve the style from the environment and the
platform on every call, then render the glyph in that style. -/
def UISymbol.to_str (self : UISymbol) (symbolStyleEnv : Option String)
    (isWindows : Bool) : String :=
  self.renderIn (resolveStyle symbolStyleEnv isWindows)

/-! ### Rust string helpers -/

/-- One step of Rust `str::lines`: when a `'\n'` terminator is reached, a line
ending in `"\r\n"` has the `'\r'` stripped.  The accumulator holds the current
line in reverse order. -/
def finishLine (acc : List Char) : List Char :=
  match acc with
  | '\r' :: rest => rest.reverse
  | _ => acc.reverse

/-- Worker for Rust `str::lines`: split at `'\n'`, the final line terminator
being optional (an unterminated trailing segment still yields a line, and an
empty tail after the last `'\n'` yields nothing). -/
def linesAux : List Char → List Char → List (List Char)
  | [], acc => if acc = [] then [] else [acc.reverse]
  | c :: cs, acc =>
    if c = '\n' then finishLine acc :: linesAux cs [] else linesAux cs (c :: acc)

/-- Rust `str::lines` on a Lean string: `""` has no lines, `"a\nb"` has lines
`["a", "b"]`, `"a\n"` has lines `["a"]`, `"\n"` has lines `[""]`. -/
def rustLines (s : String) : List String :=
  (linesAux s.data []).map (fun l => String.mk l)

/-- Rust left-aligned padded formatting `format!("{:fill<width$}", s)`: the
string `s` followed by enough copies of `fill` to reach at least `width`
characters.  `print_wrapped` uses it with `s = " "` (so the result is
`max 1 width` spaces) and `title` uses it with `s = ""` and fill `'='`. -/
def padFill (fill : Char) (width : Nat) (s : String) : String :=
  s ++ String.mk (List.replicate (width - s.length) fill)

/-! ### Styled emission -/

/-- One styled line written through `println` in `ui.rs`: the bytes of the line
together with the foreground `ColorSpec` color and its bold flag. -/
structure Styled where
  text : String
  color : UIColor
  bold : Bool
deriving DecidableEq, Repr

/-- Mirrors `UIWriter::fatal`: the sequence of styled lines written to the
error stream — a framing line of the error glyph alone, one line
`<glyph> <line>` per `message.lines()` line, and a closing framing line, all
with bold `Critical` color.  The glyph is resolved through `UISymbol::to_str`
from the symbol-style environment and platform. -/
def fatal (symbolStyleEnv : Option String) (isWindows : Bool)
    (message : String) : List Styled :=
  let g := UISymbol.ErrorX.to_str symbolStyleEnv isWindows
  Styled.mk g UIColor.Critical true ::
    ((rustLines message).map
        (fun line => Styled.mk (g ++ " " ++ line) UIColor.Critical true) ++
      [Styled.mk g UIColor.Critical true])

/-- Mirrors `UIWriter::title`: the bytes written to the output stream by the
single `println` call — `format!("{}\n{:=<width$}\n", text, "", width =
text.chars().count())` followed by the `"\n"` that `println` appends.  The
whole emission carries bold `Info` color. -/
def title_out (text : String) : String :=
  (text ++ "\n" ++ padFill '=' text.length "" ++ "\n") ++ "\n"

/-! ### Word wrapping (`print_wrapped` and `para`) -/

/-- Checked `usize` subtraction: Rust `a - b` on unsigned integers underflows
(a panic in debug builds) when `b > a`; the underflowing case is `none`. -/
def checkedSub (a b : Nat) : Option Nat :=
  if b ≤ a then some (a - b) else none

/-- One flushed line of `print_wrapped`: the bytes of
`format!("{:<width$}{}\n", " ", buffer, width = left_indent)` without the
trailing newline — the literal `" "` left-padded to `left_indent` characters,
then the buffered words. -/
def wrapLine (left_indent : Nat) (buffer : String) : String :=
  padFill ' ' left_indent " " ++ buffer

/-- The inner word loop of `print_wrapped` over one paragraph: greedily pack
words into `buffer` (tracking its character width in `width`), flushing a line
whenever `width + word_len + 1` would exceed `wrap_width - left_indent`, and
flush the remaining non-empty buffer at the end.  The subtraction
`wrap_width - left_indent` is evaluated per word exactly as in the source;
its underflow makes the whole computation `none`. -/
def wrapWords (wrap_width left_indent : Nat) :
    List String → String → Nat → Option (List String)
  | [], buffer, _ =>
    some (if buffer = "" then [] else [wrapLine left_indent buffer])
  | word :: rest, buffer, width =>
    match checkedSub wrap_width left_indent with
    | none => none
    | some lim =>
      let wl := word.length
      if width + wl + 1 > lim then
        (wrapWords wrap_width left_indent rest (word ++ " ") (wl + 1)).map
          (fun ls => wrapLine left_indent buffer :: ls)
      else
        wrapWords wrap_width left_indent rest (buffer ++ (word ++ " "))
          (width + wl + 1)

/-- The paragraph loop of `print_wrapped`: wrap each paragraph's words and
follow each paragraph with the bare `"\n"` write, modelled as an empty
line. -/
def wrapParas (wrap_width left_indent : Nat) : List String → Option (List String)
  | [] => some []
  | p :: ps =>
    match wrapWords wrap_width left_indent (splitWhitespace p) "" 0 with
    | none => none
    | some ls =>
      match wrapParas wrap_width left_indent ps with
      | none => none
      | some rest => some (ls ++ [""] ++ rest)

/-- Mirrors `print_wrapped`: split the text on `"\n\n"` into paragraphs and
wrap each; the result is the list of emitted lines (each written with a
trailing newline in the source), or `none` when the `usize` subtraction
`wrap_width - left_indent` underflows. -/
def print_wrapped (text : String) (wrap_width left_indent : Nat) :
    Option (List String) :=
  wrapParas wrap_width left_indent (splitParas text)

/-- Mirrors `UIWriter::para`: delegates to `print_wrapped` with width `75` and
indent `2`. -/
def para (text : String) : Option (List String) :=
  print_wrapped text 75 2

/-! ### Progress bar adapter -/

/-- Mirrors `struct ConsoleProgressBar` without the `pbr` rendering widget:
the declared `total` and the running `current` byte counts. -/
structure ConsoleProgressBar where
  total : Nat
  current : Nat
deriving DecidableEq, Repr

/-- Mirrors `impl Default for ConsoleProgressBar`: both counters start at
zero. -/
def ConsoleProgressBar.mkDefault : ConsoleProgressBar :=
  ConsoleProgressBar.mk 0 0

/-- Mirrors `DisplayProgress::size for ConsoleProgressBar`: a fresh rendering
widget is created and `total` is set; `current` is left unchanged. -/
def ConsoleProgressBar.size (self : ConsoleProgressBar) (n : Nat) :
    ConsoleProgressBar :=
  ConsoleProgressBar.mk n self.current

/-- Mirrors the `Ok(n)` branch of `Write::write for ConsoleProgressBar` with
`n` the byte count successfully forwarded to the inner widget: `current` is
increased by `n`, and `finish()` is invoked exactly when the new `current`
equals `total`.  The returned flag records whether `finish()` fired on this
write. -/
def ConsoleProgressBar.write (self : ConsoleProgressBar) (n : Nat) :
    ConsoleProgressBar × Bool :=
  (ConsoleProgressBar.mk self.total (self.current + n),
   self.current + n == self.total)

/-- Run a sequence of successful writes through the progress bar, counting how
many of them invoked `finish()`. -/
def runWrites (self : ConsoleProgressBar) : List Nat → ConsoleProgressBar × Nat
  | [] => (self, 0)
  | n :: ns =>
    ((runWrites (self.write n).fst ns).fst,
     (if (self.write n).snd then 1 else 0) + (runWrites (self.write n).fst ns).snd)

/-! ### Interactive reader -/

/-- Outcome of the `prompt_yes_no` loop.  `exited code` models
`process::exit(code)`; `noAnswer` marks that the loop consumed all of the
modelled input lines and would keep re-prompting. -/
inductive YesNoOutcome where
  | answer (b : Bool)
  | exited (code : Nat)
  | noAnswer
deriving DecidableEq, Repr

/-- Rust `response.trim().chars().next().unwrap_or('\n')`: the first character
of the trimmed line, or `'\n'` when the line is all whitespace. -/
def firstCharOr (response : String) : Char :=
  (trimStr response).data.headD '\n'

/-- Mirrors the loop of `UIReader::prompt_yes_no for UI` over an explicit list
of input lines (each line as delivered by `read_line`, newline included):
interpret the first non-whitespace character of each line; `y`/`Y` answers
true, `n`/`N` answers false, `q`/`Q` exits the process with status 0, an
all-whitespace line yields the default when present and re-prompts otherwise,
and anything else re-prompts. -/
def promptYesNo (default : Option Bool) : List String → YesNoOutcome
  | [] => YesNoOutcome.noAnswer
  | response :: rest =>
    if firstCharOr response = 'y' ∨ firstCharOr response = 'Y' then
      YesNoOutcome.answer true
    else if firstCharOr response = 'n' ∨ firstCharOr response = 'N' then
      YesNoOutcome.answer false
    else if firstCharOr response = 'q' ∨ firstCharOr response = 'Q' then
      YesNoOutcome.exited 0
    else if firstCharOr response = '\n' then
      match default with
      | some d => YesNoOutcome.answer d
      | none => promptYesNo default rest
    else promptYesNo default rest

/-- Mirrors the loop of `UIReader::prompt_ask for UI` over an explicit list of
input lines: an input that is empty after trimming returns the default when
present and re-prompts otherwise; a non-empty input returns the trimmed line.
`none` marks that the loop consumed all of the modelled input lines. -/
def promptAsk (default : Option String) : List String → Option String
  | [] => none
  | response :: rest =>
    if trimStr response = "" then
      match default with
      | some d => some d
      | none => promptAsk default rest
    else some (trimStr response)

/-! ### The edit flow -/

/-- The outside world as seen by one call of `UIReader::edit for UI`: the
`EDITOR` environment variable and the success or failure of each fallible
step, in program order — temp-file creation, the content writes, `sync_all`,
spawning and waiting on the editor, the editor's exit status, re-opening the
file, reading it back (with the text obtained), and `fs::remove_file`. -/
structure EditWorld where
  editorVar : Option String
  createOk : Bool
  writeOk : Bool
  syncOk : Bool
  spawnOk : Bool
  exitOk : Bool
  openOk : Bool
  readOk : Bool
  fileText : String
  removeOk : Bool
deriving DecidableEq, Repr

/-- Mirrors `UIReader::edit for UI` step by step.  The first component is the
call's result; the second records whether the uniquely-named temporary file
still exists on disk when the call returns.  Each `?`-propagated failure and
the explicit `Err(Error::EditStatus)` return are taken in source order; the
write/sync steps run only when `contents` is non-empty, and
`fs::remove_file` runs only after a successful read-back. -/
def edit (w : EditWorld) (contents : List String) : Except UIError String × Bool :=
  match w.editorVar with
  | none => (Except.error UIError.editorEnv, false)
  | some _ =>
    if w.createOk = false then (Except.error UIError.ioFail, false)
    else if contents ≠ [] ∧ w.writeOk = false then (Except.error UIError.ioFail, true)
    else if contents ≠ [] ∧ w.syncOk = false then (Except.error UIError.ioFail, true)
    else if w.spawnOk = false then (Except.error UIError.ioFail, true)
    else if w.exitOk = false then (Except.error UIError.editStatus, true)
    else if w.openOk = false then (Except.error UIError.ioFail, true)
    else if w.readOk = false then (Except.error UIError.ioFail, true)
    else if w.removeOk = false then (Except.error UIError.ioFail, true)
    else (Except.ok w.fileText, false)

/-! ### Output streams -/

/-- A foreground color specification as built by `ColorSpec::new().set_fg(..)
.set_bold(..)` in the source. -/
structure ColorSpecM where
  fg : Option UIColor
  bold : Bool
deriving DecidableEq, Repr

/-- The behavior of a plain boxed writer (`Box<dyn Write + Send>`): the results
of its `write` and `flush` calls. -/
structure PlainWrite where
  writeFn : List Nat → Except UIError Nat
  flushFn : Unit → Except UIError Unit

/-- The behavior of a `termcolor::StandardStream`: its color support and the
results of its five operations. -/
structure ColorStream where
  supportsColorFn : Bool
  setColorFn : ColorSpecM → Except UIError Unit
  resetFn : Unit → Except UIError Unit
  writeFn : List Nat → Except UIError Nat
  flushFn : Unit → Except UIError Unit

/-- Mirrors `enum WriteStream`: a plain write object without color support, or
a color-enabled standard stream. -/
inductive WriteStream where
  | Write (w : PlainWrite)
  | Stream (s : ColorStream)

/-- Mirrors `struct OutputStream` (the `coloring` policy field carries no
behavior in the modelled operations and is omitted). -/
structure OutputStream where
  inner : WriteStream
  isatty : Bool

/-- Mirrors `WriteColor::supports_color for OutputStream`: delegate for the
`Stream` representation, `false` otherwise. -/
def OutputStream.supports_color (o : OutputStream) : Bool :=
  match o.inner with
  | WriteStream.Stream s => s.supportsColorFn
  | _ => false

/-- Mirrors `WriteColor::reset for OutputStream`: delegate for the `Stream`
representation, `Ok(())` otherwise. -/
def OutputStream.reset (o : OutputStream) : Except UIError Unit :=
  match o.inner with
  | WriteStream.Stream s => s.resetFn ()
  | _ => Except.ok ()

/-- Mirrors `WriteColor::set_color for OutputStream`: delegate for the `Stream`
representation, `Ok(())` otherwise. -/
def OutputStream.set_color (o : OutputStream) (spec : ColorSpecM) :
    Except UIError Unit :=
  match o.inner with
  | WriteStream.Stream s => s.setColorFn spec
  | _ => Except.ok ()

/-- Mirrors `Write::write for OutputStream`: delegate to whichever
representation underlies the stream. -/
def OutputStream.write (o : OutputStream) (buf : List Nat) : Except UIError Nat :=
  match o.inner with
  | WriteStream.Stream s => s.writeFn buf
  | WriteStream.Write w => w.writeFn buf

/-- Mirrors `Write::flush for OutputStream`: delegate to whichever
representation underlies the stream. -/
def OutputStream.flush (o : OutputStream) : Except UIError Unit :=
  match o.inner with
  | WriteStream.Stream s => s.flushFn ()
  | WriteStream.Write w => w.flushFn ()


/-! ## Theorems

Helper lemmas first, then one theorem per checked claim (with explicit
counterexample and witness theorems where applicable). -/

/-- The flushed line of `print_wrapped` is `max 1 I` pad spaces followed by
the buffer. -/
theorem wrapLine_eq (I : Nat) (b : String) :
    wrapLine I b = String.mk (List.replicate (max 1 I) ' ') ++ b := by
  have h : max 1 I = (I - 1) + 1 := by omega
  rw [h, List.replicate_succ]
  rfl

/-- Length of a flushed line: the pad plus the buffer. -/
theorem wrapLine_length (I : Nat) (b : String) :
    (wrapLine I b).length = max 1 I + b.length := by
  rw [wrapLine_eq, String.length_append]
  congr 1
  exact List.length_replicate _ _

/-- A flushed line always contains at least its one pad space. -/
theorem wrapLine_ne_empty (I : Nat) (b : String) : wrapLine I b ≠ "" := by
  intro h
  have h2 := congrArg String.length h
  rw [wrapLine_length] at h2
  simp only [show String.length "" = 0 from rfl] at h2
  omega

/-- Every line emitted by the word loop is a flushed `wrapLine`. -/
theorem wrapWords_shape (W I : Nat) :
    ∀ (ws : List String) (buffer : String) (width : Nat) (ls : List String),
      wrapWords W I ws buffer width = some ls →
      ∀ l ∈ ls, ∃ b, l = wrapLine I b := by
  intro ws
  induction ws with
  | nil =>
    intro buffer width ls h l hl
    simp only [wrapWords] at h
    injection h with h
    subst h
    by_cases hb : buffer = ""
    · rw [if_pos hb] at hl
      cases hl
    · rw [if_neg hb] at hl
      rw [List.mem_singleton] at hl
      exact ⟨buffer, hl⟩
  | cons w ws ih =>
    intro buffer width ls h l hl
    simp only [wrapWords] at h
    cases hcs : checkedSub W I with
    | none => rw [hcs] at h; cases h
    | some lim =>
      rw [hcs] at h
      simp only at h
      by_cases hov : width + w.length + 1 > lim
      · rw [if_pos hov] at h
        rw [Option.map_eq_some'] at h
        obtain ⟨ls', hinner, hcons⟩ := h
        subst hcons
        rcases List.mem_cons.mp hl with hl | hl
        · exact ⟨buffer, hl⟩
        · exact ih _ _ _ hinner l hl
      · rw [if_neg hov] at h
        exact ih _ _ _ h l hl

/-- Greedy-packing invariant: when every word fits (word length + 1 at most
`W - I`) and the buffer width invariant holds, every flushed line's buffer is
at most `W - I` characters. -/
theorem wrapWords_bound (W I : Nat) :
    ∀ (ws : List String) (buffer : String) (width : Nat) (ls : List String),
      (∀ w ∈ ws, w.length + 1 ≤ W - I) →
      buffer.length = width → width ≤ W - I →
      wrapWords W I ws buffer width = some ls →
      ∀ l ∈ ls, ∃ b, l = wrapLine I b ∧ b.length ≤ W - I := by
  intro ws
  induction ws with
  | nil =>
    intro buffer width ls _ hb hw h l hl
    simp only [wrapWords] at h
    injection h with h
    subst h
    by_cases hbe : buffer = ""
    · rw [if_pos hbe] at hl
      cases hl
    · rw [if_neg hbe] at hl
      rw [List.mem_singleton] at hl
      exact ⟨buffer, hl, by omega⟩
  | cons w ws ih =>
    intro buffer width ls hws hb hw h l hl
    simp only [wrapWords] at h
    cases hcs : checkedSub W I with
    | none => rw [hcs] at h; cases h
    | some lim =>
      have hlim : lim = W - I := by
        by_cases hle : I ≤ W
        · simp [checkedSub, hle] at hcs
          omega
        · simp [checkedSub, hle] at hcs
      subst hlim
      rw [hcs] at h
      simp only at h
      have hwword : w.length + 1 ≤ W - I := hws w (List.mem_cons_self _ _)
      have hwrest : ∀ x ∈ ws, x.length + 1 ≤ W - I :=
        fun x hx => hws x (List.mem_cons_of_mem _ hx)
      by_cases hov : width + w.length + 1 > W - I
      · rw [if_pos hov] at h
        rw [Option.map_eq_some'] at h
        obtain ⟨ls', hinner, hcons⟩ := h
        subst hcons
        rcases List.mem_cons.mp hl with hl | hl
        · exact ⟨buffer, hl, by omega⟩
        · refine ih (w ++ " ") (w.length + 1) ls' hwrest ?_ (by omega) hinner l hl
          rw [String.length_append]
          simp only [show String.length " " = 1 from rfl]
      · rw [if_neg hov] at h
        refine ih (buffer ++ (w ++ " ")) (width + w.length + 1) ls hwrest ?_
          (by omega) h l hl
        rw [String.length_append, String.length_append]
        simp only [show String.length " " = 1 from rfl]
        omega

/-- The word loop never fails when the indent is at most the width. -/
theorem wrapWords_isSome (W I : Nat) (hWI : I ≤ W) :
    ∀ (ws : List String) (buffer : String) (width : Nat),
      (wrapWords W I ws buffer width).isSome = true := by
  intro ws
  induction ws with
  | nil => intro buffer width; simp [wrapWords]
  | cons w ws ih =>
    intro buffer width
    have hcs : checkedSub W I = some (W - I) := by simp [checkedSub, hWI]
    simp only [wrapWords, hcs]
    by_cases hov : width + w.length + 1 > W - I
    · obtain ⟨v, hv⟩ := Option.isSome_iff_exists.mp (ih (w ++ " ") (w.length + 1))
      rw [if_pos hov, hv]
      rfl
    · rw [if_neg hov]
      exact ih _ _

/-- The paragraph loop never fails when the indent is at most the width. -/
theorem wrapParas_isSome (W I : Nat) (hWI : I ≤ W) :
    ∀ ps : List String, (wrapParas W I ps).isSome = true := by
  intro ps
  induction ps with
  | nil => simp [wrapParas]
  | cons p ps ih =>
    obtain ⟨ls, hls⟩ :=
      Option.isSome_iff_exists.mp (wrapWords_isSome W I hWI (splitWhitespace p) "" 0)
    obtain ⟨rest, hrest⟩ := Option.isSome_iff_exists.mp ih
    simp [wrapParas, hls, hrest]

/-- Every emitted line is the blank paragraph separator or a flushed
`wrapLine`. -/
theorem wrapParas_shape (W I : Nat) :
    ∀ (ps : List String) (ls : List String),
      wrapParas W I ps = some ls →
      ∀ l ∈ ls, l = "" ∨ ∃ b, l = wrapLine I b := by
  intro ps
  induction ps with
  | nil =>
    intro ls h l hl
    injection h with h
    subst h
    cases hl
  | cons p ps ih =>
    intro ls h l hl
    simp only [wrapParas] at h
    cases hw : wrapWords W I (splitWhitespace p) "" 0 with
    | none => rw [hw] at h; cases h
    | some lsp =>
      rw [hw] at h
      cases hr : wrapParas W I ps with
      | none => rw [hr] at h; cases h
      | some rest =>
        rw [hr] at h
        simp only at h
        injection h with h
        subst h
        rcases List.mem_append.mp hl with hl1 | hl2
        · rcases List.mem_append.mp hl1 with hla | hlb
          · exact Or.inr (wrapWords_shape W I _ _ _ _ hw l hla)
          · rw [List.mem_singleton] at hlb
            exact Or.inl hlb
        · exact ih rest hr l hl2

/-- Exactly one blank line is emitted per paragraph. -/
theorem wrapParas_count (W I : Nat) :
    ∀ (ps : List String) (ls : List String),
      wrapParas W I ps = some ls → List.count "" ls = ps.length := by
  intro ps
  induction ps with
  | nil =>
    intro ls h
    injection h with h
    subst h
    rfl
  | cons p ps ih =>
    intro ls h
    simp only [wrapParas] at h
    cases hw : wrapWords W I (splitWhitespace p) "" 0 with
    | none => rw [hw] at h; cases h
    | some lsp =>
      rw [hw] at h
      cases hr : wrapParas W I ps with
      | none => rw [hr] at h; cases h
      | some rest =>
        rw [hr] at h
        simp only at h
        injection h with h
        subst h
        have hzero : List.count "" lsp = 0 := by
          rw [List.count_eq_zero]
          intro hmem
          obtain ⟨b, hb⟩ := wrapWords_shape W I _ _ _ _ hw "" hmem
          exact wrapLine_ne_empty I b hb.symm
        have hone : List.count "" ([""] : List String) = 1 := by decide
        rw [List.count_append, List.count_append, hzero, hone, ih rest hr]
        simp [List.length_cons]
        omega

/-- Width bound for every emitted line, given short-enough words. -/
theorem wrapParas_bound (W I : Nat) :
    ∀ (ps : List String) (ls : List String),
      (∀ p ∈ ps, ∀ w ∈ splitWhitespace p, w.length + 1 ≤ W - I) →
      wrapParas W I ps = some ls →
      ∀ l ∈ ls, l.length ≤ max 1 I + (W - I) := by
  intro ps
  induction ps with
  | nil =>
    intro ls _ h l hl
    injection h with h
    subst h
    cases hl
  | cons p ps ih =>
    intro ls hws h l hl
    simp only [wrapParas] at h
    cases hw : wrapWords W I (splitWhitespace p) "" 0 with
    | none => rw [hw] at h; cases h
    | some lsp =>
      rw [hw] at h
      cases hr : wrapParas W I ps with
      | none => rw [hr] at h; cases h
      | some rest =>
        rw [hr] at h
        simp only at h
        injection h with h
        subst h
        rcases List.mem_append.mp hl with hl1 | hl2
        · rcases List.mem_append.mp hl1 with hla | hlb
          · obtain ⟨b, hb, hble⟩ :=
              wrapWords_bound W I (splitWhitespace p) "" 0 lsp
                (hws p (List.mem_cons_self _ _)) rfl (by omega) hw l hla
            rw [hb, wrapLine_length]
            omega
          · rw [List.mem_singleton] at hlb
            subst hlb
            simp only [show String.length "" = 0 from rfl]
            omega
        · exact ih rest (fun q hq => hws q (List.mem_cons_of_mem _ hq)) hr l hl2

/-- The progress bar fires `finish()` exactly when the new running count
equals the declared total. -/
theorem write_fired_iff (s : ConsoleProgressBar) (n : Nat) :
    (s.write n).snd = true ↔ s.current + n = s.total := by
  simp [ConsoleProgressBar.write]

/-- Once the running count is strictly past the total, no later write fires
`finish()`. -/
theorem runWrites_zero_of_gt :
    ∀ (ns : List Nat) (s : ConsoleProgressBar),
      s.total < s.current → (runWrites s ns).snd = 0 := by
  intro ns
  induction ns with
  | nil => intro s _; rfl
  | cons n ns ih =>
    intro s h
    have hf : (s.write n).snd = false := by
      simp [ConsoleProgressBar.write]
      omega
    have hrest := ih (s.write n).fst (by simp [ConsoleProgressBar.write]; omega)
    simp [runWrites, hf, hrest]

/-- From a state already at the total, positive-size writes never fire
`finish()` again. -/
theorem runWrites_zero_of_eq (ns : List Nat) (hpos : ∀ m ∈ ns, 0 < m)
    (s : ConsoleProgressBar) (heq : s.current = s.total) :
    (runWrites s ns).snd = 0 := by
  cases ns with
  | nil => rfl
  | cons n ns =>
    have hn : 0 < n := hpos n (List.mem_cons_self _ _)
    have hf : (s.write n).snd = false := by
      simp [ConsoleProgressBar.write]
      omega
    have hrest := runWrites_zero_of_gt ns (s.write n).fst
      (by simp [ConsoleProgressBar.write]; omega)
    simp [runWrites, hf, hrest]

/-- Over any sequence of positive-size writes, `finish()` fires at most
once. -/
theorem runWrites_le_one :
    ∀ (ns : List Nat), (∀ m ∈ ns, 0 < m) →
      ∀ s : ConsoleProgressBar, (runWrites s ns).snd ≤ 1 := by
  intro ns
  induction ns with
  | nil => intro _ s; simp [runWrites]
  | cons n ns ih =>
    intro hpos s
    cases hf : (s.write n).snd with
    | false =>
      have := ih (fun m hm => hpos m (List.mem_cons_of_mem _ hm)) (s.write n).fst
      simp [runWrites, hf]
      omega
    | true =>
      have heq : s.current + n = s.total := (write_fired_iff s n).mp hf
      have h0 : (runWrites (s.write n).fst ns).snd = 0 :=
        runWrites_zero_of_eq ns (fun m hm => hpos m (List.mem_cons_of_mem _ hm)) _
          (by simp [ConsoleProgressBar.write, heq])
      simp [runWrites, hf, h0]

/-- The `lines` worker never returns an empty line list for non-empty
input. -/
theorem linesAux_ne_nil :
    ∀ (l : List Char) (acc : List Char), l ≠ [] → linesAux l acc ≠ [] := by
  intro l
  induction l with
  | nil => intro acc h; exact absurd rfl h
  | cons c cs ih =>
    intro acc _
    simp only [linesAux]
    by_cases hc : c = '\n'
    · simp [hc]
    · rw [if_neg hc]
      cases cs with
      | nil => simp [linesAux]
      | cons d ds => exact ih _ (by simp)

/-- A non-empty string has at least one line. -/
theorem rustLines_ne_nil (s : String) (h : s ≠ "") : rustLines s ≠ [] := by
  have hd : s.data ≠ [] := by
    intro hdd
    apply h
    cases s with
    | mk l => cases hdd; rfl
  simpa [rustLines] using linesAux_ne_nil s.data [] hd

/-- An all-whitespace input line reads as the `'\n'` fallback character. -/
theorem firstCharOr_of_trim_empty (l : String) (h : trimStr l = "") :
    firstCharOr l = '\n' := by
  simp [firstCharOr, h]

/-- Without a default, `prompt_yes_no` answers only on a definitive `y`/`n`
input line. -/
theorem promptYesNo_none_definitive :
    ∀ (ls : List String) (b : Bool),
      promptYesNo none ls = YesNoOutcome.answer b →
      ∃ l, l ∈ ls ∧
        ((b = true ∧ (firstCharOr l = 'y' ∨ firstCharOr l = 'Y')) ∨
          (b = false ∧ (firstCharOr l = 'n' ∨ firstCharOr l = 'N'))) := by
  intro ls
  induction ls with
  | nil => intro b h; simp [promptYesNo] at h
  | cons l rest ih =>
    intro b h
    simp only [promptYesNo] at h
    by_cases h1 : firstCharOr l = 'y' ∨ firstCharOr l = 'Y'
    · rw [if_pos h1] at h
      injection h with hb
      exact ⟨l, List.mem_cons_self _ _, Or.inl ⟨hb.symm, h1⟩⟩
    · rw [if_neg h1] at h
      by_cases h2 : firstCharOr l = 'n' ∨ firstCharOr l = 'N'
      · rw [if_pos h2] at h
        injection h with hb
        exact ⟨l, List.mem_cons_self _ _, Or.inr ⟨hb.symm, h2⟩⟩
      · rw [if_neg h2] at h
        by_cases h3 : firstCharOr l = 'q' ∨ firstCharOr l = 'Q'
        · rw [if_pos h3] at h
          cases h
        · rw [if_neg h3] at h
          by_cases h4 : firstCharOr l = '\n'
          · rw [if_pos h4] at h
            obtain ⟨l', hm, hp⟩ := ih b h
            exact ⟨l', List.mem_cons_of_mem _ hm, hp⟩
          · rw [if_neg h4] at h
            obtain ⟨l', hm, hp⟩ := ih b h
            exact ⟨l', List.mem_cons_of_mem _ hm, hp⟩

/-- C1: amended form — after `size(total)` the running byte count grows by
exactly the forwarded byte count of each write (so it is monotonically
non-decreasing) and the declared total never changes; `finish()` fires on a
write precisely when the resulting running count equals the declared total; a
write that pushes the count strictly past the total never fires; when every
write forwards at least one byte, completion fires at most once over any
write sequence; and after `size(100)`, writing 60 then 40 bytes fires exactly
once, on the second write.  (Unconditionally "exactly once" fails: a
zero-byte write arriving at the total re-fires, see the counterexample.) -/
theorem claim_C1 :
    (∀ (s : ConsoleProgressBar) (n : Nat),
        ((s.write n).fst).current = s.current + n ∧ ((s.write n).fst).total = s.total) ∧
      (∀ (s : ConsoleProgressBar) (n : Nat),
        (s.write n).snd = true ↔ s.current + n = s.total) ∧
      (∀ (s : ConsoleProgressBar) (n : Nat),
        s.total < s.current + n → (s.write n).snd = false) ∧
      (∀ ns : List Nat, (∀ m ∈ ns, 0 < m) →
        ∀ s : ConsoleProgressBar, (runWrites s ns).snd ≤ 1) ∧
      (((ConsoleProgressBar.mkDefault.size 100).write 60).snd = false ∧
        ((((ConsoleProgressBar.mkDefault.size 100).write 60).fst).write 40).snd = true ∧
        (runWrites (ConsoleProgressBar.mkDefault.size 100) [60, 40]).snd = 1) := by
  refine ⟨fun s n => ⟨rfl, rfl⟩, write_fired_iff, ?_, runWrites_le_one, by decide⟩
  intro s n h
  simp [ConsoleProgressBar.write]
  omega

/-- C1 counterexample: after `size(100)`, a 100-byte write followed by a
zero-byte write makes `finish()` fire twice, so completion is not signaled
exactly once across write calls. -/
theorem claim_C1_cex :
    (runWrites (ConsoleProgressBar.mkDefault.size 100) [100, 0]).snd = 2 := by
  decide

/-- C1 witness: the at-most-once and overshoot clauses evaluated at concrete
inputs. -/
theorem claim_C1_witness :
    ((∀ m ∈ ([60, 40] : List Nat), 0 < m) ∧
        (runWrites (ConsoleProgressBar.mkDefault.size 100) [60, 40]).snd ≤ 1) ∧
      ((100 : Nat) < 90 + 20 ∧ ((ConsoleProgressBar.mk 100 90).write 20).snd = false) :=
  ⟨⟨by decide, claim_C1.2.2.2.1 [60, 40] (by decide) _⟩,
    ⟨by decide, claim_C1.2.2.1 (ConsoleProgressBar.mk 100 90) 20 (by decide)⟩⟩

/-- C2: the source leaks the temporary file on early-return error paths —
when the editor exits with non-zero status the call returns
`Err(Error::EditStatus)` with the temp file still on disk, and when the
read-back fails the propagated error likewise leaves the file behind.  This
theorem evaluates the embedded `edit` at both failing worlds: the second
component `true` records that the temporary file outlives the call. -/
theorem claim_C2 :
    edit (EditWorld.mk (some "vi") true true true true false true true "" true) ["hello"] =
        (Except.error UIError.editStatus, true) ∧
      edit (EditWorld.mk (some "vi") true true true true true true false "" true) ["hello"] =
        (Except.error UIError.ioFail, true) :=
  ⟨rfl, rfl⟩

/-- C3: amended form — `print_wrapped` splits the text on double line-breaks
into paragraphs and greedily packs whitespace-separated words; every emitted
line is either the blank paragraph separator or consists of `max(1, indent)`
pad spaces (the Rust left-pad formatting of the literal `" "` never pads below
one space, so indent 0 still yields one leading space) followed by the packed
words, each with a trailing space; when every word is short enough (word
length + 1 at most `width - indent`) the packed portion of a line is at most
`width - indent` characters, so no line exceeds `max(1, indent) +
(width - indent)` characters; one blank line is emitted per paragraph; and for
text `"a b c d e"` with width 6 and indent 0 the emitted lines are exactly
`" a b c "`, `" d e "`, `""`, each of at most 7 characters. -/
theorem claim_C3 :
    (∀ (text : String) (W I : Nat) (ls : List String),
        print_wrapped text W I = some ls →
          List.count "" ls = (splitParas text).length) ∧
      (∀ (text : String) (W I : Nat) (ls : List String),
        print_wrapped text W I = some ls →
          ∀ l ∈ ls, l = "" ∨
            ∃ b, l = String.mk (List.replicate (max 1 I) ' ') ++ b) ∧
      (∀ (text : String) (W I : Nat) (ls : List String),
        (∀ p ∈ splitParas text, ∀ w ∈ splitWhitespace p, w.length + 1 ≤ W - I) →
        print_wrapped text W I = some ls →
        ∀ l ∈ ls, l.length ≤ max 1 I + (W - I)) ∧
      (print_wrapped "a b c d e" 6 0 = some [" a b c ", " d e ", ""] ∧
        ∀ l ∈ [" a b c ", " d e ", ""], String.length l ≤ 7) := by
  refine ⟨?_, ?_, ?_, by decide, by decide⟩
  · intro text W I ls h
    exact wrapParas_count W I (splitParas text) ls h
  · intro text W I ls h l hl
    rcases wrapParas_shape W I (splitParas text) ls h l hl with hb | ⟨b, hb⟩
    · exact Or.inl hb
    · exact Or.inr ⟨b, by rw [hb, wrapLine_eq]⟩
  · intro text W I ls hws h
    exact wrapParas_bound W I (splitParas text) ls hws h

/-- C3 counterexample: with text `"a b c d e"`, width 6 and indent 0, the
first emitted line is `" a b c "`, which is 7 characters wide — more than 6 —
and carries one leading pad space although the indent is 0. -/
theorem claim_C3_cex :
    print_wrapped "a b c d e" 6 0 = some [" a b c ", " d e ", ""] ∧
      " a b c " ∈ [" a b c ", " d e ", ""] ∧ 6 < String.length " a b c " := by
  decide

/-- C3 witness: the line-width bound evaluated at a concrete wrap. -/
theorem claim_C3_witness :
    print_wrapped "aa bb" 10 2 = some ["  aa bb ", ""] ∧
      ∀ l ∈ ["  aa bb ", ""], String.length l ≤ max 1 2 + (10 - 2) :=
  ⟨by decide,
    claim_C3.2.2.1 "aa bb" 10 2 ["  aa bb ", ""] (by decide) (by decide)⟩

/-- C4: amended form — `fatal(msg)` emits, all in bold Critical color to the
error stream, a framing line of the error glyph alone, one `<glyph> <line>`
line per line of `msg`, and a closing framing line; the total line count is
`2 + (number of lines of msg)`, which is three or more whenever `msg` is
non-empty (but only two for `msg = ""`); `fatal("a\nb")` emits exactly the 4
lines `✗✗✗`, `✗✗✗ a`, `✗✗✗ b`, `✗✗✗`. -/
theorem claim_C4 :
    (∀ (env : Option String) (win : Bool) (msg : String),
        (fatal env win msg).length = 2 + (rustLines msg).length ∧
          (fatal env win msg).head? =
            some (Styled.mk (UISymbol.ErrorX.to_str env win) UIColor.Critical true) ∧
          (fatal env win msg).getLast? =
            some (Styled.mk (UISymbol.ErrorX.to_str env win) UIColor.Critical true) ∧
          ((fatal env win msg).drop 1).dropLast =
            (rustLines msg).map
              (fun line =>
                Styled.mk (UISymbol.ErrorX.to_str env win ++ " " ++ line)
                  UIColor.Critical true) ∧
          (∀ e ∈ fatal env win msg, e.color = UIColor.Critical ∧ e.bold = true) ∧
          (msg ≠ "" → 3 ≤ (fatal env win msg).length)) ∧
      fatal none false "a\nb" =
        [Styled.mk "✗✗✗" UIColor.Critical true,
          Styled.mk "✗✗✗ a" UIColor.Critical true,
          Styled.mk "✗✗✗ b" UIColor.Critical true,
          Styled.mk "✗✗✗" UIColor.Critical true] := by
  refine ⟨fun env win msg => ⟨?_, ?_, ?_, ?_, ?_, ?_⟩, by decide⟩
  · simp [fatal]
    omega
  · simp [fatal]
  · have hsplit :
        fatal env win msg =
          (Styled.mk (UISymbol.ErrorX.to_str env win) UIColor.Critical true ::
              (rustLines msg).map
                (fun line =>
                  Styled.mk (UISymbol.ErrorX.to_str env win ++ " " ++ line)
                    UIColor.Critical true)) ++
            [Styled.mk (UISymbol.ErrorX.to_str env win) UIColor.Critical true] := by
      simp [fatal]
    rw [hsplit, List.getLast?_concat]
  · simp [fatal, List.dropLast_concat]
  · intro e he
    simp [fatal] at he
    rcases he with rfl | ⟨⟨line, hline, rfl⟩ | rfl⟩
    · exact ⟨rfl, rfl⟩
    · exact ⟨rfl, rfl⟩
    · exact ⟨rfl, rfl⟩
  · intro hne
    have := List.length_pos.mpr (rustLines_ne_nil msg hne)
    simp [fatal]
    omega

/-- C4 counterexample: `fatal("")` emits only the two framing lines, so a
fatal call can emit fewer than three lines. -/
theorem claim_C4_cex :
    (fatal none false "").length = 2 ∧ ¬3 ≤ (fatal none false "").length := by
  decide

/-- C4 witness: the non-empty-message clause evaluated at `"a"`. -/
theorem claim_C4_witness :
    ("a" : String) ≠ "" ∧ 3 ≤ (fatal none false "a").length :=
  ⟨by decide, (claim_C4.1 none false "a").2.2.2.2.2 (by decide)⟩

/-- C5: on every glyph rendering the style is resolved afresh from the
environment value passed to the call: a set symbol-style variable is matched
case-insensitively against full/limited/ascii, an unparseable value falls
back to Full, no override yields Limited on Windows and Full elsewhere, and
every glyph has a non-empty rendering in every style. -/
theorem claim_C5 :
    (∀ (win : Bool) (s : String),
        toLowerStr s = "full" → resolveStyle (some s) win = UISymbolStyle.Full) ∧
      (∀ (win : Bool) (s : String),
        toLowerStr s = "limited" → resolveStyle (some s) win = UISymbolStyle.Limited) ∧
      (∀ (win : Bool) (s : String),
        toLowerStr s = "ascii" → resolveStyle (some s) win = UISymbolStyle.Ascii) ∧
      (∀ (win : Bool) (s : String),
        toLowerStr s ≠ "full" → toLowerStr s ≠ "limited" → toLowerStr s ≠ "ascii" →
          resolveStyle (some s) win = UISymbolStyle.Full) ∧
      (resolveStyle none true = UISymbolStyle.Limited ∧
        resolveStyle none false = UISymbolStyle.Full) ∧
      (∀ (sym : UISymbol) (env : Option String) (win : Bool),
        sym.to_str env win = sym.renderIn (resolveStyle env win)) ∧
      (∀ (sym : UISymbol) (st : UISymbolStyle), sym.renderIn st ≠ "") := by
  refine ⟨?_, ?_, ?_, ?_, ⟨rfl, rfl⟩, fun _ _ _ => rfl, ?_⟩
  · intro win s h
    simp [resolveStyle, UISymbolStyle.from_str, h]
  · intro win s h
    simp [resolveStyle, UISymbolStyle.from_str, h]
  · intro win s h
    simp [resolveStyle, UISymbolStyle.from_str, h]
  · intro win s h1 h2 h3
    simp [resolveStyle, UISymbolStyle.from_str, h1, h2, h3]
    rfl
  · intro sym st
    cases sym <;> cases st <;> decide

/-- C5 witness: case-insensitive parsing and the unparseable fallback
evaluated at concrete environment values. -/
theorem claim_C5_witness :
    (toLowerStr "FULL" = "full" ∧ resolveStyle (some "FULL") true = UISymbolStyle.Full) ∧
      (toLowerStr "sparkle" ≠ "full" ∧
        resolveStyle (some "sparkle") false = UISymbolStyle.Full) :=
  ⟨⟨by decide, claim_C5.1 true "FULL" (by decide)⟩,
    ⟨by decide, claim_C5.2.2.2.1 false "sparkle" (by decide) (by decide) (by decide)⟩⟩

/-- C6: `prompt_yes_no` interprets the first non-whitespace character of each
input line: `y`/`Y` returns true, `n`/`N` returns false, `q`/`Q` terminates
the process with success status, an empty (all-whitespace) line returns the
provided default when one exists and re-prompts otherwise, and any other
character re-prompts; with default `Some(true)` and input `"\n"` it returns
true; and with no default it never returns an answer without a definitive
`y`/`n` line. -/
theorem claim_C6 :
    (∀ (d : Option Bool) (rest : List String) (l : String),
        (firstCharOr l = 'y' ∨ firstCharOr l = 'Y') →
          promptYesNo d (l :: rest) = YesNoOutcome.answer true) ∧
      (∀ (d : Option Bool) (rest : List String) (l : String),
        (firstCharOr l = 'n' ∨ firstCharOr l = 'N') →
          promptYesNo d (l :: rest) = YesNoOutcome.answer false) ∧
      (∀ (d : Option Bool) (rest : List String) (l : String),
        (firstCharOr l = 'q' ∨ firstCharOr l = 'Q') →
          promptYesNo d (l :: rest) = YesNoOutcome.exited 0) ∧
      (∀ (b : Bool) (rest : List String) (l : String), trimStr l = "" →
        promptYesNo (some b) (l :: rest) = YesNoOutcome.answer b) ∧
      (∀ (rest : List String) (l : String), trimStr l = "" →
        promptYesNo none (l :: rest) = promptYesNo none rest) ∧
      (∀ (d : Option Bool) (rest : List String) (l : String),
        firstCharOr l ≠ 'y' → firstCharOr l ≠ 'Y' → firstCharOr l ≠ 'n' →
        firstCharOr l ≠ 'N' → firstCharOr l ≠ 'q' → firstCharOr l ≠ 'Q' →
        firstCharOr l ≠ '\n' →
          promptYesNo d (l :: rest) = promptYesNo d rest) ∧
      promptYesNo (some true) ["\n"] = YesNoOutcome.answer true ∧
      (∀ (ls : List String) (b : Bool),
        promptYesNo none ls = YesNoOutcome.answer b →
        ∃ l, l ∈ ls ∧
          ((b = true ∧ (firstCharOr l = 'y' ∨ firstCharOr l = 'Y')) ∨
            (b = false ∧ (firstCharOr l = 'n' ∨ firstCharOr l = 'N')))) := by
  refine ⟨?_, ?_, ?_, ?_, ?_, ?_, by decide, promptYesNo_none_definitive⟩
  · intro d rest l h
    simp only [promptYesNo]
    rw [if_pos h]
  · intro d rest l h
    have hne : ¬(firstCharOr l = 'y' ∨ firstCharOr l = 'Y') := by
      rcases h with h | h <;> rw [h] <;> decide
    simp only [promptYesNo]
    rw [if_neg hne, if_pos h]
  · intro d rest l h
    have hne1 : ¬(firstCharOr l = 'y' ∨ firstCharOr l = 'Y') := by
      rcases h with h | h <;> rw [h] <;> decide
    have hne2 : ¬(firstCharOr l = 'n' ∨ firstCharOr l = 'N') := by
      rcases h with h | h <;> rw [h] <;> decide
    simp only [promptYesNo]
    rw [if_neg hne1, if_neg hne2, if_pos h]
  · intro b rest l h
    have hc := firstCharOr_of_trim_empty l h
    simp only [promptYesNo]
    rw [hc]
    rfl
  · intro rest l h
    have hc := firstCharOr_of_trim_empty l h
    simp only [promptYesNo]
    rw [hc]
    rfl
  · intro d rest l h1 h2 h3 h4 h5 h6 h7
    simp only [promptYesNo]
    rw [if_neg (by simp [h1, h2]), if_neg (by simp [h3, h4]),
      if_neg (by simp [h5, h6]), if_neg h7]

/-- C6 witness: the clauses evaluated on concrete input lines. -/
theorem claim_C6_witness :
    (firstCharOr "y\n" = 'y' ∧
        promptYesNo none ["y\n"] = YesNoOutcome.answer true) ∧
      (firstCharOr " Quit\n" = 'Q' ∧
        promptYesNo (some true) [" Quit\n"] = YesNoOutcome.exited 0) ∧
      (trimStr " \n" = "" ∧
        promptYesNo (some false) [" \n"] = YesNoOutcome.answer false) :=
  ⟨⟨by decide, claim_C6.1 none [] "y\n" (Or.inl (by decide))⟩,
    ⟨by decide, claim_C6.2.2.1 (some true) [] " Quit\n" (Or.inr (by decide))⟩,
    ⟨by decide, claim_C6.2.2.2.1 false [] " \n" (by decide)⟩⟩

/-- C7: `prompt_ask` returns the default when the trimmed input line is empty
and a default is present, re-prompts on empty input without a default, and
returns the trimmed line on non-empty input; with default `Some("foo")` and
empty input it returns `"foo"`, and with input `"  bar  "` it returns
`"bar"`. -/
theorem claim_C7 :
    (∀ (d : String) (rest : List String) (l : String), trimStr l = "" →
        promptAsk (some d) (l :: rest) = some d) ∧
      (∀ (rest : List String) (l : String), trimStr l = "" →
        promptAsk none (l :: rest) = promptAsk none rest) ∧
      (∀ (d : Option String) (rest : List String) (l : String), trimStr l ≠ "" →
        promptAsk d (l :: rest) = some (trimStr l)) ∧
      promptAsk (some "foo") [""] = some "foo" ∧
      promptAsk none ["  bar  \n"] = some "bar" := by
  refine ⟨?_, ?_, ?_, by decide, by decide⟩
  · intro d rest l h
    simp [promptAsk, h]
  · intro rest l h
    simp [promptAsk, h]
  · intro d rest l h
    simp [promptAsk, h]

/-- C7 witness: the clauses evaluated on concrete input lines. -/
theorem claim_C7_witness :
    (trimStr "\n" = "" ∧ promptAsk (some "xyz") ["\n"] = some "xyz") ∧
      (trimStr " a b \n" ≠ "" ∧
        promptAsk none [" a b \n"] = some (trimStr " a b \n")) :=
  ⟨⟨by decide, claim_C7.1 "xyz" [] "\n" (by decide)⟩,
    ⟨by decide, claim_C7.2.2.1 none [] " a b \n" (by decide)⟩⟩

/-- C8: `title(text)` emits the text, a newline, and an underline of `'='`
repeated exactly the character count of the text (Lean `String.length` counts
characters, not bytes); `title("Report")` emits `"Report\n"` followed by a
line of exactly 6 `'='` characters. -/
theorem claim_C8 :
    (∀ text : String,
        title_out text =
            text ++ "\n" ++ String.mk (List.replicate text.length '=') ++ "\n" ++ "\n" ∧
          (String.mk (List.replicate text.length '=')).length = text.length ∧
          ∀ c ∈ (String.mk (List.replicate text.length '=')).data, c = '=') ∧
      title_out "Report" = "Report\n======\n\n" := by
  refine ⟨fun text => ⟨rfl, List.length_replicate _ _, fun c hc => ?_⟩, by decide⟩
  exact List.eq_of_mem_replicate hc

/-- C8 witness: the underline-character clause evaluated at `"Report"`. -/
theorem claim_C8_witness :
    '=' ∈ (String.mk (List.replicate ("Report").length '=')).data ∧
      ('=' : Char) = '=' :=
  ⟨by decide, (claim_C8.1 "Report").2.2 '=' (by decide)⟩

/-- C9: on an `OutputStream` backed by a plain byte sink, `set_color` and
`reset` are no-ops returning `Ok(())` and `supports_color` is false, while
`write` and `flush` delegate to the sink; on a color-capable stream all five
operations delegate to the underlying stream — so all five are defined for
both representations. -/
theorem claim_C9 :
    (∀ (pw : PlainWrite) (tty : Bool) (spec : ColorSpecM) (buf : List Nat),
        (OutputStream.mk (WriteStream.Write pw) tty).set_color spec = Except.ok () ∧
          (OutputStream.mk (WriteStream.Write pw) tty).reset = Except.ok () ∧
          (OutputStream.mk (WriteStream.Write pw) tty).supports_color = false ∧
          (OutputStream.mk (WriteStream.Write pw) tty).write buf = pw.writeFn buf ∧
          (OutputStream.mk (WriteStream.Write pw) tty).flush = pw.flushFn ()) ∧
      (∀ (cs : ColorStream) (tty : Bool) (spec : ColorSpecM) (buf : List Nat),
        (OutputStream.mk (WriteStream.Stream cs) tty).set_color spec = cs.setColorFn spec ∧
          (OutputStream.mk (WriteStream.Stream cs) tty).reset = cs.resetFn () ∧
          (OutputStream.mk (WriteStream.Stream cs) tty).supports_color = cs.supportsColorFn ∧
          (OutputStream.mk (WriteStream.Stream cs) tty).write buf = cs.writeFn buf ∧
          (OutputStream.mk (WriteStream.Stream cs) tty).flush = cs.flushFn ()) :=
  ⟨fun _ _ _ _ => ⟨rfl, rfl, rfl, rfl, rfl⟩, fun _ _ _ _ => ⟨rfl, rfl, rfl, rfl, rfl⟩⟩

/-- C10: `print_wrapped` is total whenever `indent ≤ width`; the `usize`
subtraction `wrap_width - left_indent` underflows whenever `width < indent`
and the line-packing check is reached, as at text `"a b"`, width 0, indent 1;
and the only caller, `para`, always passes width 75 and indent 2, satisfying
the precondition. -/
theorem claim_C10 :
    (∀ (text : String) (W I : Nat), I ≤ W → (print_wrapped text W I).isSome = true) ∧
      (∀ (W I : Nat), W < I → checkedSub W I = none) ∧
      print_wrapped "a b" 0 1 = none ∧
      (∀ text : String,
        para text = print_wrapped text 75 2 ∧ (para text).isSome = true) := by
  refine ⟨?_, ?_, by decide, fun text => ⟨rfl, ?_⟩⟩
  · intro text W I hWI
    exact wrapParas_isSome W I hWI (splitParas text)
  · intro W I h
    simp [checkedSub]
    omega
  · exact wrapParas_isSome 75 2 (by omega) (splitParas text)

/-- C10 witness: totality under the precondition evaluated at a concrete
input. -/
theorem claim_C10_witness :
    (1 : Nat) ≤ 5 ∧ (print_wrapped "hello world" 5 1).isSome = true :=
  ⟨by decide, claim_C10.1 "hello world" 5 1 (by decide)⟩

end Habitat
